import Mathlib

/-!
Verification development for the software renderer (src/common.hpp, src/main.cpp).

Modelling conventions:
- The C++ `F32` (single-precision float) is modelled by exact arithmetic: `ℚ` for the
  executable kernel and controller state, `ℝ` where the source calls `__builtin_sqrtf`
  (whose model is a `sqrt` function parameter, instantiated with `Real.sqrt`).
  Floating-point rounding is not modelled; float literals are modelled by their decimal
  values (e.g. `3.1415927f` becomes `31415927/10^7`).
- IEEE division by zero inside the slab kernel (the source marks it `TODO: Handle divide
  by zero...` and the spec relies on infinity propagation) is modelled by `ieeeDiv` into
  `QInf`, rationals extended with `-inf`/`+inf`.  The IEEE `0/0 = NaN` corner is modelled
  as `0`; no theorem below depends on that corner.
- The 4-lane SIMD layout (`F32x4`) stores `x, y, z, 0` for `Vec3f` and `w, e23, e13, e12`
  for `Quatf`.  The shuffles in the source were expanded by hand into the componentwise
  formulas below; the unused fourth lane is provably zero throughout and is dropped.
-/

set_option linter.unusedSectionVars false

namespace Engine

/-- Embeds `Engine::Vec3f` (src/common.hpp): three coordinates; the zero fourth SIMD
lane is dropped. -/
structure Vec3f (α : Type) where
  x : α
  y : α
  z : α
  deriving DecidableEq

/-- Embeds `Engine::Quatf` (src/common.hpp): scalar part `w` and bivector parts
`e23, e13, e12` (lanes 0..3 of `m_v`). -/
structure Quatf (α : Type) where
  w : α
  e23 : α
  e13 : α
  e12 : α
  deriving DecidableEq

variable {α : Type} [CommRing α]

/-- Componentwise `operator+` on `Vec3f` (lanewise `a.m_v + b.m_v`). -/
instance : Add (Vec3f α) :=
  ⟨fun a b => ⟨a.x + b.x, a.y + b.y, a.z + b.z⟩⟩

/-- Componentwise `operator-` on `Vec3f`. -/
instance : Sub (Vec3f α) :=
  ⟨fun a b => ⟨a.x - b.x, a.y - b.y, a.z - b.z⟩⟩

/-- Componentwise unary `operator-` on `Vec3f`. -/
instance : Neg (Vec3f α) :=
  ⟨fun v => ⟨-v.x, -v.y, -v.z⟩⟩

/-- Scalar multiplication `scalar * v` on `Vec3f` (lanewise `scalar * v.m_v`). -/
instance : SMul α (Vec3f α) :=
  ⟨fun s v => ⟨s * v.x, s * v.y, s * v.z⟩⟩

@[simp] theorem Vec3f.add_x (a b : Vec3f α) : (a + b).x = a.x + b.x := rfl

@[simp] theorem Vec3f.add_y (a b : Vec3f α) : (a + b).y = a.y + b.y := rfl

@[simp] theorem Vec3f.add_z (a b : Vec3f α) : (a + b).z = a.z + b.z := rfl

@[simp] theorem Vec3f.sub_x (a b : Vec3f α) : (a - b).x = a.x - b.x := rfl

@[simp] theorem Vec3f.sub_y (a b : Vec3f α) : (a - b).y = a.y - b.y := rfl

@[simp] theorem Vec3f.sub_z (a b : Vec3f α) : (a - b).z = a.z - b.z := rfl

@[simp] theorem Vec3f.neg_x (v : Vec3f α) : (-v).x = -v.x := rfl

@[simp] theorem Vec3f.neg_y (v : Vec3f α) : (-v).y = -v.y := rfl

@[simp] theorem Vec3f.neg_z (v : Vec3f α) : (-v).z = -v.z := rfl

@[simp] theorem Vec3f.smul_x (s : α) (v : Vec3f α) : (s • v).x = s * v.x := rfl

@[simp] theorem Vec3f.smul_y (s : α) (v : Vec3f α) : (s • v).y = s * v.y := rfl

@[simp] theorem Vec3f.smul_z (s : α) (v : Vec3f α) : (s • v).z = s * v.z := rfl

theorem Vec3f.ext3 {a b : Vec3f α} (hx : a.x = b.x) (hy : a.y = b.y) (hz : a.z = b.z) :
    a = b := by
  cases a
  cases b
  simp_all

/-- Embeds `Engine::Cross` (src/common.hpp lines 153-158): the shuffle pattern
`<1,2,0,3> * <2,0,1,3> - <2,0,1,3> * <1,2,0,3>` expands to the standard right-handed
cross product; lane 3 is `a3*b3 - a3*b3 = 0`. -/
def Cross (a b : Vec3f α) : Vec3f α :=
  ⟨a.y * b.z - a.z * b.y, a.z * b.x - a.x * b.z, a.x * b.y - a.y * b.x⟩

@[simp] theorem Cross_x (a b : Vec3f α) : (Cross a b).x = a.y * b.z - a.z * b.y := rfl

@[simp] theorem Cross_y (a b : Vec3f α) : (Cross a b).y = a.z * b.x - a.x * b.z := rfl

@[simp] theorem Cross_z (a b : Vec3f α) : (Cross a b).z = a.x * b.y - a.y * b.x := rfl

/-- Embeds `Engine::Dot` (src/common.hpp lines 160-166) applied to `Vec3f` lanes:
the 4-lane horizontal sum with the zero fourth lane contributing nothing. -/
def Dot (a b : Vec3f α) : α :=
  a.x * b.x + a.y * b.y + a.z * b.z

/-- Embeds `Engine::Dot` applied to `Quatf` lanes (the 4-lane horizontal sum used by
`Normalize(Quatf)`). -/
def QuatDot (a b : Quatf α) : α :=
  a.w * b.w + a.e23 * b.e23 + a.e13 * b.e13 + a.e12 * b.e12

/-- Embeds `Engine::Conjugate` (src/common.hpp lines 195-199): negate the bivector. -/
def Conjugate (a : Quatf α) : Quatf α :=
  ⟨a.w, -a.e23, -a.e13, -a.e12⟩

@[simp] theorem Conjugate_w (a : Quatf α) : (Conjugate a).w = a.w := rfl

@[simp] theorem Conjugate_e23 (a : Quatf α) : (Conjugate a).e23 = -a.e23 := rfl

@[simp] theorem Conjugate_e13 (a : Quatf α) : (Conjugate a).e13 = -a.e13 := rfl

@[simp] theorem Conjugate_e12 (a : Quatf α) : (Conjugate a).e12 = -a.e12 := rfl

/-- Embeds `Engine::operator*(Quatf, Quatf)` (src/common.hpp lines 201-218).  The
shuffle/sign pattern (`a1[0] *= -1` etc.) expands lanewise to the Hamilton product;
each component below is lane `k` of `a0*b0 + (a2*b2 + (a1*b1 + a3*b3))`. -/
instance : Mul (Quatf α) :=
  ⟨fun a b =>
    ⟨a.w * b.w - a.e23 * b.e23 - a.e13 * b.e13 - a.e12 * b.e12,
     a.w * b.e23 + a.e23 * b.w + a.e13 * b.e12 - a.e12 * b.e13,
     a.w * b.e13 + a.e13 * b.w - a.e23 * b.e12 + a.e12 * b.e23,
     a.w * b.e12 + a.e12 * b.w + a.e23 * b.e13 - a.e13 * b.e23⟩⟩

@[simp] theorem Quatf.mul_w (a b : Quatf α) :
    (a * b).w = a.w * b.w - a.e23 * b.e23 - a.e13 * b.e13 - a.e12 * b.e12 := rfl

@[simp] theorem Quatf.mul_e23 (a b : Quatf α) :
    (a * b).e23 = a.w * b.e23 + a.e23 * b.w + a.e13 * b.e12 - a.e12 * b.e13 := rfl

@[simp] theorem Quatf.mul_e13 (a b : Quatf α) :
    (a * b).e13 = a.w * b.e13 + a.e13 * b.w - a.e23 * b.e12 + a.e12 * b.e23 := rfl

@[simp] theorem Quatf.mul_e12 (a b : Quatf α) :
    (a * b).e12 = a.w * b.e12 + a.e12 * b.w + a.e23 * b.e13 - a.e13 * b.e23 := rfl

theorem Quatf.ext4 {a b : Quatf α} (hw : a.w = b.w) (h1 : a.e23 = b.e23)
    (h2 : a.e13 = b.e13) (h3 : a.e12 = b.e12) : a = b := by
  cases a
  cases b
  simp_all

/-- Embeds `Engine::Rotate` (src/common.hpp lines 220-225): the sandwich-product
shortcut `v + 2*(Cross(u, Cross(u, v)) + w * Cross(u, v))` with `u` the bivector part
(the `w` placed in the shuffled fourth lane never reaches lanes 0-2). -/
def Rotate (q : Quatf α) (v : Vec3f α) : Vec3f α :=
  let u : Vec3f α := ⟨q.e23, q.e13, q.e12⟩
  let uv := Cross u v
  v + (2 : α) • (Cross u uv + q.w • uv)

/-- Embeds `Engine::InverseRotate` (src/common.hpp lines 227-232):
`v + 2*(w * Cross(u, v) - Cross(u, Cross(u, v)))` exactly as written in the source. -/
def InverseRotate (q : Quatf α) (v : Vec3f α) : Vec3f α :=
  let u : Vec3f α := ⟨q.e23, q.e13, q.e12⟩
  let uv := Cross u v
  v + (2 : α) • (q.w • uv - Cross u uv)

/-- Embeds `Engine::Pose` (src/common.hpp lines 249-258): position plus orientation. -/
structure Pose (α : Type) where
  pos : Vec3f α
  ori : Quatf α
  deriving DecidableEq

/-- Embeds `Engine::Transform(Pose, Pose)` (src/common.hpp lines 260-265):
orientation `a.m_ori * b.m_ori`, position `a.m_pos + Rotate(a.m_ori, b.m_pos)`. -/
def Transform (a b : Pose α) : Pose α :=
  ⟨a.pos + Rotate a.ori b.pos, a.ori * b.ori⟩

/-- Embeds `Engine::Inverse(Pose)` (src/common.hpp lines 267-279): orientation is the
conjugate, position is `-InverseRotate(pose.m_ori, pose.m_pos)`. -/
def Inverse (p : Pose α) : Pose α :=
  ⟨-(InverseRotate p.ori p.pos), Conjugate p.ori⟩

/-- Embeds `Engine::Transform(Pose, Vec3f)` (src/common.hpp lines 281-284):
rotate then translate. -/
def TransformPoint (p : Pose α) (v : Vec3f α) : Vec3f α :=
  p.pos + Rotate p.ori v

/-- Embeds the float constant `kPi = 3.1415927f` (decimal value, rounding not
modelled). -/
def kPi : ℚ := 3.1415927

/-- Embeds the float constant `kTau = 6.2831853f`. -/
def kTau : ℚ := 6.2831853

/-- Embeds the float constant `kHalfPi = 1.5707963f`. -/
def kHalfPi : ℚ := 1.5707963

/-- Embeds the float constant `kInvTau = 0.15915494f`. -/
def kInvTau : ℚ := 0.15915494

/-- Embeds `static_cast<I32>` on a float value: C truncation toward zero (floor for
nonnegative input, ceiling for negative input; the I32 overflow range is never reached
by the inputs considered here). -/
def castToI32 {β : Type} [LinearOrderedField β] [FloorRing β] (x : β) : ℤ :=
  if 0 ≤ x then ⌊x⌋ else ⌈x⌉

/-- Embeds `Engine::Sin` (src/common.hpp lines 29-40): range reduction via truncation,
two symmetry folds, then the degree-7 Taylor polynomial. -/
def Sin {β : Type} [LinearOrderedField β] [FloorRing β] (x : β) : β :=
  let x1 := x - ((kTau : ℚ) : β) * ((castToI32 (x * ((kInvTau : ℚ) : β)) : ℤ) : β)
  let x2 := if x1 > ((kHalfPi : ℚ) : β) then ((kPi : ℚ) : β) - x1 else x1
  let x3 := if x2 < -((kHalfPi : ℚ) : β) then -((kPi : ℚ) : β) - x2 else x2
  let xsq := x3 * x3
  x3 * (1 - xsq * ((1 : β) / 6 - xsq * ((1 : β) / 120 - xsq * ((1 : β) / 5040))))

/-- Embeds `Engine::Cos` (src/common.hpp lines 42-45): `Sin(x + kHalfPi)`. -/
def Cos {β : Type} [LinearOrderedField β] [FloorRing β] (x : β) : β :=
  Sin (x + ((kHalfPi : ℚ) : β))

/-- Embeds `Engine::Tan` (src/common.hpp lines 47-50): `Sin(angle) / Cos(angle)`. -/
def Tan {β : Type} [LinearOrderedField β] [FloorRing β] (angle : β) : β :=
  Sin angle / Cos angle

/-- Embeds `Engine::Normalize(Vec3f)` (src/common.hpp lines 168-171):
`v / Sqrt(Dot(v, v))`.  The square root (`__builtin_sqrtf` in the source) is a
function parameter, instantiated with `Real.sqrt` in the theorems. -/
def Vec3f.Normalize {β : Type} [Field β] (sqrt : β → β) (v : Vec3f β) : Vec3f β :=
  let s := sqrt (Dot v v)
  ⟨v.x / s, v.y / s, v.z / s⟩

/-- Embeds `Engine::Normalize(Quatf)` (src/common.hpp lines 244-247):
`q.m_v / Sqrt(Dot(q.m_v, q.m_v))`. -/
def Quatf.Normalize {β : Type} [Field β] (sqrt : β → β) (q : Quatf β) : Quatf β :=
  let s := sqrt (QuatDot q q)
  ⟨q.w / s, q.e23 / s, q.e13 / s, q.e12 / s⟩

/-- Embeds `Engine::FromAngleAxis` (src/common.hpp lines 234-242): half-angle cosine,
sine magnitude via `Sqrt(1 - cos^2)` with the sign of the angle, axis renormalized. -/
def FromAngleAxis {β : Type} [LinearOrderedField β] [FloorRing β] (sqrt : β → β)
    (angle : β) (axis : Vec3f β) : Quatf β :=
  let cosHalfAngle := Cos (angle * ((1 : β) / 2))
  let sinHalfAngle := sqrt (1 - cosHalfAngle * cosHalfAngle) *
    (if 0 ≤ angle then 1 else -1)
  let scaledAxis := sinHalfAngle • Vec3f.Normalize sqrt axis
  ⟨cosHalfAngle, scaledAxis.x, scaledAxis.y, scaledAxis.z⟩

/-- Embeds the yaw branch of `Engine::HandleInput` (src/main.cpp lines 239-247): when
the accumulated horizontal mouse delta is nonzero, right-multiply the camera rotor by
`FromAngleAxis(0.002f * mouseX, (0,1,0))` and renormalize; otherwise the orientation
field is left untouched. -/
def HandleInputYaw {β : Type} [LinearOrderedField β] [FloorRing β] (sqrt : β → β)
    (mouseX : ℤ) (camInWorld : Quatf β) : Quatf β :=
  if mouseX = 0 then camInWorld
  else
    Quatf.Normalize sqrt
      (camInWorld * FromAngleAxis sqrt (((0.002 : ℚ) : β) * (mouseX : β)) ⟨0, 1, 0⟩)

/-- Extended rationals modelling IEEE-754 float values inside the slab kernel:
finite values plus `-inf` (`⊥`) and `+inf` (`↑⊤`). -/
abbrev QInf := WithBot (WithTop ℚ)

/-- Coercion of a finite value into `QInf`. -/
def toQInf (q : ℚ) : QInf := ((q : WithTop ℚ) : QInf)

/-- Positive infinity in `QInf`. -/
def qTop : QInf := ((⊤ : WithTop ℚ) : QInf)

/-- Negative infinity in `QInf`. -/
def qBot : QInf := (⊥ : QInf)

/-- Models the IEEE float division performed by the slab kernel (src/main.cpp lines
193-194, marked `TODO: Handle divide by zero...`): a nonzero numerator over zero gives
a signed infinity; `0/0` (IEEE NaN) is modelled as `0` and is relied on by no theorem
below. -/
def ieeeDiv (num den : ℚ) : QInf :=
  if den = 0 then
    if 0 < num then qTop
    else if num < 0 then qBot
    else toQInf 0
  else toQInf (num / den)

/-- Embeds `Engine::Min` (src/common.hpp lines 62-65): `a < b ? a : b`, on the slab
kernel's extended values. -/
def Min (a b : QInf) : QInf := if a < b then a else b

/-- Embeds `Engine::Max` (src/common.hpp lines 67-70): `a > b ? a : b`. -/
def Max (a b : QInf) : QInf := if a > b then a else b

/-- Lane selector modelling `operator[]` on `Vec3f` for axis indices 0, 1, 2. -/
def Vec3f.idx {β : Type} (v : Vec3f β) : ℕ → β
  | 0 => v.x
  | 1 => v.y
  | _ => v.z

@[simp] theorem Vec3f.idx_zero {β : Type} (v : Vec3f β) : v.idx 0 = v.x := rfl

@[simp] theorem Vec3f.idx_one {β : Type} (v : Vec3f β) : v.idx 1 = v.y := rfl

@[simp] theorem Vec3f.idx_two {β : Type} (v : Vec3f β) : v.idx 2 = v.z := rfl

/-- State of the per-cube slab loop of `ComputeFragment` (src/main.cpp lines 187-189):
`tNear`, `tFar` and the tracked `hitFace`. -/
structure Slab where
  tNear : QInf
  tFar : QInf
  hitFace : ℕ
  deriving DecidableEq

/-- Embeds one iteration of the axis loop of `ComputeFragment` (src/main.cpp lines
190-210), minus the early exit (which lives in `slabLoop`): the two slab-boundary
distances `t1 = (min - point)/dir`, `t2 = (max - point)/dir`, their min/max, the
conditional tightenings of `tNear` (with `hitFace := iAxis*2 + (dir < 0)`) and of
`tFar`. -/
def axisStep (pointInCube pixelDirInCube : Vec3f ℚ) (hs : ℚ) (iAxis : ℕ) (s : Slab) :
    Slab :=
  let t1 := ieeeDiv (-hs - pointInCube.idx iAxis) (pixelDirInCube.idx iAxis)
  let t2 := ieeeDiv (hs - pointInCube.idx iAxis) (pixelDirInCube.idx iAxis)
  let tMin := Min t1 t2
  let tMax := Max t1 t2
  let s1 :=
    if tMin > s.tNear then
      { s with
        tNear := tMin
        hitFace := iAxis * 2 + (if pixelDirInCube.idx iAxis < 0 then 1 else 0) }
    else s
  if tMax < s1.tFar then { s1 with tFar := tMax } else s1

/-- Embeds the axis loop of `ComputeFragment` with its early exit: after each axis,
`if (tNear > tFar) break;` (src/main.cpp lines 206-209). -/
def slabLoop (p d : Vec3f ℚ) (hs : ℚ) : List ℕ → Slab → Slab
  | [], s => s
  | i :: rest, s =>
    let s1 := axisStep p d hs i s
    if s1.tNear > s1.tFar then s1 else slabLoop p d hs rest s1

/-- Straight-line variant of the axis loop without the early exit, used to state that
the early exit never changes the reported hit (claim C2). -/
def slabNoBreak (p d : Vec3f ℚ) (hs : ℚ) : List ℕ → Slab → Slab
  | [], s => s
  | i :: rest, s => slabNoBreak p d hs rest (axisStep p d hs i s)

/-- Initial slab state (src/main.cpp lines 187-189): `tNear = 0`, `tFar = 4096`,
`hitFace = 0`. -/
def slabInit : Slab := ⟨toQInf 0, toQInf 4096, 0⟩

/-- Complete per-cube slab test in the cube's local frame: the three axes in order from
the initial state. -/
def slabTest (p d : Vec3f ℚ) (hs : ℚ) : Slab :=
  slabLoop p d hs [0, 1, 2] slabInit

/-- Break-free counterpart of `slabTest`. -/
def slabTestNoBreak (p d : Vec3f ℚ) (hs : ℚ) : Slab :=
  slabNoBreak p d hs [0, 1, 2] slabInit

/-- Embeds one cube instance of the scene: a pose and the edge length. -/
structure Cube where
  pose : Pose ℚ
  size : ℚ
  deriving DecidableEq

/-- Embeds the per-cube body of `ComputeFragment` (src/main.cpp lines 168-210):
transform the world ray into the cube's local frame via `Inverse(cubeInWorld)` and run
the slab test against the box of half-extent `size * 0.5`. -/
def cubeSlab (pixelInWorld pixelDirInWorld : Vec3f ℚ) (c : Cube) : Slab :=
  let worldToCube := Inverse c.pose
  let pointInCube := TransformPoint worldToCube pixelInWorld
  let pixelDirInCube := Rotate worldToCube.ori pixelDirInWorld
  slabTest pointInCube pixelDirInCube (c.size * (1 / 2))

/-- Embeds `kBackground = 0xFF111111` (src/main.cpp line 159). -/
def kBackground : ℕ := 0xFF111111

/-- Embeds `kFaceColors` (src/main.cpp lines 214-221): the six face colors in index
order `X+, X-, Y+, Y-, Z+, Z-`. -/
def kFaceColors : List ℕ :=
  [0xFFFF0000, 0xFF880000, 0xFF00FF00, 0xFF008800, 0xFF0000FF, 0xFF000088]

/-- Embeds the cube loop of `ComputeFragment` (src/main.cpp lines 166-225): cubes in
scene order; on the first cube with `tNear < tFar` the pixel takes that cube's face
color and the loop breaks; otherwise the background remains. -/
def fragLoop (pixelInWorld pixelDirInWorld : Vec3f ℚ) : List Cube → ℕ
  | [] => kBackground
  | c :: rest =>
    let s := cubeSlab pixelInWorld pixelDirInWorld c
    if s.tNear < s.tFar then kFaceColors.getD s.hitFace 0
    else fragLoop pixelInWorld pixelDirInWorld rest

/-- Embeds the ray origin used by `ComputeFragment` (src/main.cpp line 161):
`Transform(cameraToWorld, pixelInCamera)`. -/
def pixelInWorldOf (cameraToWorld : Pose ℚ) (pixelInCamera : Vec3f ℚ) : Vec3f ℚ :=
  TransformPoint cameraToWorld pixelInCamera

/-- Embeds the ray direction used by `ComputeFragment` (src/main.cpp line 162):
`Rotate(cameraToWorld.m_ori, (pixelInCamera.x, pixelInCamera.y, 1))`. -/
def pixelDirInWorldOf (cameraToWorld : Pose ℚ) (pixelInCamera : Vec3f ℚ) : Vec3f ℚ :=
  Rotate cameraToWorld.ori ⟨pixelInCamera.x, pixelInCamera.y, 1⟩

/-- Embeds `Engine::ComputeFragment` (src/main.cpp lines 157-228), with the scene's
structure-of-arrays cube storage (indices `0 .. m_numCubes-1` in insertion order)
presented as a list in the same order. -/
def ComputeFragment (pixelInCamera : Vec3f ℚ) (cubes : List Cube)
    (cameraToWorld : Pose ℚ) : ℕ :=
  fragLoop (pixelInWorldOf cameraToWorld pixelInCamera)
    (pixelDirInWorldOf cameraToWorld pixelInCamera) cubes

/-- Embeds `kWindowWidth = 800` (src/main.cpp line 14). -/
def kWindowWidth : ℕ := 800

/-- Embeds `kWindowHeight = 600` (src/main.cpp line 15). -/
def kWindowHeight : ℕ := 600

/-- Embeds `kAspect = F32(kWindowWidth) / F32(kWindowHeight)` (src/main.cpp line 18). -/
def kAspect : ℚ := (kWindowWidth : ℚ) / (kWindowHeight : ℚ)

/-- Embeds `kFovY = 80.0f * (3.14159265f / 180.0f)` (src/main.cpp line 19). -/
def kFovY : ℚ := 80 * (3.14159265 / 180)

/-- Embeds `kTanHalfFov = Tan(kFovY * 0.5f)` (src/main.cpp line 20). -/
def kTanHalfFov : ℚ := Tan (kFovY * (1 / 2))

/-- Embeds `Engine::WindowToCamera` (src/main.cpp lines 148-155): pixel center to NDC
(`y` flipped), scaled by aspect (x only) and `tan(fovY/2)`, with `z = 0`. -/
def WindowToCamera (x y : ℕ) : Vec3f ℚ :=
  let xInNdc : ℚ := 2 * ((x : ℚ) + 1 / 2) / (kWindowWidth : ℚ) - 1
  let yInNdc : ℚ := 1 - 2 * ((y : ℚ) + 1 / 2) / (kWindowHeight : ℚ)
  ⟨xInNdc * kAspect * kTanHalfFov, yInNdc * kTanHalfFov, 0⟩

/-- Embeds `kMaxCubes = 1024` (src/main.cpp line 16), the length of each
structure-of-arrays cube array in `Engine::State`. -/
def kMaxCubes : ℕ := 1024

/-- Models the scene portion of `Engine::State` (src/main.cpp lines 49-57): the cube
count plus the cube stores, presented per-index.  Indices `0 .. kMaxCubes-1` model the
allocated arrays; larger indices model memory past the arrays. -/
structure State where
  numCubes : ℕ
  cubes : ℕ → Cube

/-- Index written by one cube insertion in `Engine::Run` (src/main.cpp line 312):
`const U32 iCube = state.m_numCubes++;`. -/
def addCubeWriteIndex (s : State) : ℕ := s.numCubes

/-- Embeds one iteration of the cube-insertion loop in `Engine::Run` (src/main.cpp
lines 310-324): unconditionally post-increment `m_numCubes` and write the cube's pose
and size at the old count.  The source performs no capacity comparison and returns no
error value. -/
def AddCube (s : State) (c : Cube) : State :=
  { numCubes := s.numCubes + 1
    cubes := fun i => if i = s.numCubes then c else s.cubes i }

@[simp] theorem toQInf_lt_toQInf {a b : ℚ} : toQInf a < toQInf b ↔ a < b := by
  simp [toQInf]

@[simp] theorem toQInf_inj {a b : ℚ} : toQInf a = toQInf b ↔ a = b := by
  simp [toQInf]

@[simp] theorem toQInf_lt_qTop {a : ℚ} : toQInf a < qTop :=
  WithBot.coe_lt_coe.mpr (WithTop.coe_lt_top a)

theorem qTop_eq_top : qTop = (⊤ : QInf) := rfl

@[simp] theorem not_qTop_lt {x : QInf} : ¬ qTop < x := by
  rw [qTop_eq_top]
  exact not_top_lt

@[simp] theorem qBot_lt_toQInf {a : ℚ} : qBot < toQInf a :=
  WithBot.bot_lt_coe _

@[simp] theorem not_lt_qBot {x : QInf} : ¬ x < qBot :=
  not_lt_bot

@[simp] theorem qBot_lt_qTop : qBot < qTop :=
  WithBot.bot_lt_coe _

theorem ieeeDiv_of_ne_zero {num den : ℚ} (h : den ≠ 0) :
    ieeeDiv num den = toQInf (num / den) := by
  simp [ieeeDiv, h]

theorem Min_eq_min (a b : QInf) : Min a b = min a b := by
  rw [Min, min_def]
  split_ifs with h1 h2 h2
  · rfl
  · exact absurd h1.le h2
  · exact (le_antisymm h2 (le_of_not_lt h1)).symm
  · rfl

theorem Max_eq_max (a b : QInf) : Max a b = max a b := by
  rw [Max, max_def]
  split_ifs with h1 h2 h2
  · exact le_antisymm h2 h1.le
  · rfl
  · rfl
  · exact absurd (not_le.mp h2) h1

@[simp] theorem Slab.ite_tNear {c : Prop} [Decidable c] (a b : Slab) :
    (if c then a else b).tNear = if c then a.tNear else b.tNear := by
  split_ifs <;> rfl

@[simp] theorem Slab.ite_tFar {c : Prop} [Decidable c] (a b : Slab) :
    (if c then a else b).tFar = if c then a.tFar else b.tFar := by
  split_ifs <;> rfl

@[simp] theorem Slab.ite_hitFace {c : Prop} [Decidable c] (a b : Slab) :
    (if c then a else b).hitFace = if c then a.hitFace else b.hitFace := by
  split_ifs <;> rfl

theorem axisStep_tNear_mono (p d : Vec3f ℚ) (hs : ℚ) (i : ℕ) (s : Slab) :
    s.tNear ≤ (axisStep p d hs i s).tNear := by
  simp only [axisStep, Slab.ite_tNear, ite_self]
  split_ifs with h1
  · exact le_of_lt h1
  · exact le_refl _

theorem axisStep_tFar_mono (p d : Vec3f ℚ) (hs : ℚ) (i : ℕ) (s : Slab) :
    (axisStep p d hs i s).tFar ≤ s.tFar := by
  simp only [axisStep, Slab.ite_tNear, Slab.ite_tFar, ite_self]
  split_ifs with h1
  · exact le_of_lt h1
  · exact le_refl _

theorem slabNoBreak_tNear_mono (p d : Vec3f ℚ) (hs : ℚ) (l : List ℕ) (s : Slab) :
    s.tNear ≤ (slabNoBreak p d hs l s).tNear := by
  induction l generalizing s with
  | nil => exact le_refl _
  | cons i rest ih =>
    exact le_trans (axisStep_tNear_mono p d hs i s) (ih (axisStep p d hs i s))

theorem slabNoBreak_tFar_mono (p d : Vec3f ℚ) (hs : ℚ) (l : List ℕ) (s : Slab) :
    (slabNoBreak p d hs l s).tFar ≤ s.tFar := by
  induction l generalizing s with
  | nil => exact le_refl _
  | cons i rest ih =>
    exact le_trans (ih (axisStep p d hs i s)) (axisStep_tFar_mono p d hs i s)

theorem slabLoop_agree (p d : Vec3f ℚ) (hs : ℚ) (l : List ℕ) (s : Slab) :
    ((slabLoop p d hs l s).tNear < (slabLoop p d hs l s).tFar ↔
      (slabNoBreak p d hs l s).tNear < (slabNoBreak p d hs l s).tFar) ∧
    ((slabLoop p d hs l s).tNear < (slabLoop p d hs l s).tFar →
      slabLoop p d hs l s = slabNoBreak p d hs l s) := by
  induction l generalizing s with
  | nil => exact ⟨Iff.rfl, fun _ => rfl⟩
  | cons i rest ih =>
    simp only [slabLoop, slabNoBreak]
    by_cases h : (axisStep p d hs i s).tNear > (axisStep p d hs i s).tFar
    · rw [if_pos h]
      refine ⟨⟨fun hlt => absurd hlt (lt_asymm h), fun hlt => ?_⟩,
        fun hlt => absurd hlt (lt_asymm h)⟩
      have h1 := slabNoBreak_tNear_mono p d hs rest (axisStep p d hs i s)
      have h2 := slabNoBreak_tFar_mono p d hs rest (axisStep p d hs i s)
      exact absurd hlt (lt_asymm (lt_of_le_of_lt h2 (lt_of_lt_of_le h h1)))
    · rw [if_neg h]
      exact ih (axisStep p d hs i s)

end Engine


namespace Engine

/-- Identity-orientation unit cube at the world origin, used by claim C3. -/
def c3Cube : Cube := ⟨⟨⟨0, 0, 0⟩, ⟨1, 0, 0, 0⟩⟩, 1⟩

/-- Camera pose placing the ray origin at `(0,0,-10)` with identity orientation, so the
center pixel ray of claim C3 is the ray from `(0,0,-10)` along `+z`. -/
def c3Camera : Pose ℚ := ⟨⟨0, 0, -10⟩, ⟨1, 0, 0, 0⟩⟩

/-- First cube of the claim C1 witness scene: unit cube at `(0,0,10)`. -/
def wCubeA : Cube := ⟨⟨⟨0, 0, 10⟩, ⟨1, 0, 0, 0⟩⟩, 1⟩

/-- Second cube of the claim C1 witness scene: unit cube at `(0,0,2)`, strictly nearer
to the ray origin than `wCubeA`. -/
def wCubeB : Cube := ⟨⟨⟨0, 0, 2⟩, ⟨1, 0, 0, 0⟩⟩, 1⟩

/-- Identity camera pose at the world origin. -/
def idCamera : Pose ℚ := ⟨⟨0, 0, 0⟩, ⟨1, 0, 0, 0⟩⟩

/-- Claim C1: for every pixel ray (arbitrary pixel-in-camera point and camera pose) and
every scene split as `pre ++ c :: post` in insertion order, if every cube of `pre`
misses the ray and `c`'s slab test registers a hit (`tNear < tFar`), then
`ComputeFragment` returns `c`'s face color — whatever `post` contains, in particular
when a later cube would be hit at a strictly smaller parametric distance.  The kernel
stops at the first hit in scene order and never searches for the globally nearest
hit. -/
theorem computeFragment_first_hit_in_order (pixelInCamera : Vec3f ℚ)
    (cameraToWorld : Pose ℚ) (pre post : List Cube) (c : Cube)
    (hpre : ∀ c' ∈ pre,
      ¬ (cubeSlab (pixelInWorldOf cameraToWorld pixelInCamera)
            (pixelDirInWorldOf cameraToWorld pixelInCamera) c').tNear <
          (cubeSlab (pixelInWorldOf cameraToWorld pixelInCamera)
            (pixelDirInWorldOf cameraToWorld pixelInCamera) c').tFar)
    (hc : (cubeSlab (pixelInWorldOf cameraToWorld pixelInCamera)
            (pixelDirInWorldOf cameraToWorld pixelInCamera) c).tNear <
        (cubeSlab (pixelInWorldOf cameraToWorld pixelInCamera)
            (pixelDirInWorldOf cameraToWorld pixelInCamera) c).tFar) :
    ComputeFragment pixelInCamera (pre ++ c :: post) cameraToWorld =
      kFaceColors.getD
        (cubeSlab (pixelInWorldOf cameraToWorld pixelInCamera)
          (pixelDirInWorldOf cameraToWorld pixelInCamera) c).hitFace 0 := by
  unfold ComputeFragment
  induction pre with
  | nil =>
    simp only [List.nil_append, fragLoop]
    rw [if_pos hc]
  | cons a rest ih =>
    have ha := hpre a (by simp)
    simp only [List.cons_append, fragLoop]
    rw [if_neg ha]
    exact ih fun c' h => hpre c' (by simp [h])

/-- Witness for claim C1 at a concrete scene: the later cube `wCubeB` is hit strictly
nearer (`3/2 < 19/2`) yet the kernel returns the color of the earlier cube `wCubeA`. -/
theorem computeFragment_first_hit_in_order_witness :
    (cubeSlab (pixelInWorldOf idCamera ⟨0, 0, 0⟩) (pixelDirInWorldOf idCamera ⟨0, 0, 0⟩)
        wCubeB).tNear <
      (cubeSlab (pixelInWorldOf idCamera ⟨0, 0, 0⟩)
        (pixelDirInWorldOf idCamera ⟨0, 0, 0⟩) wCubeA).tNear ∧
    (cubeSlab (pixelInWorldOf idCamera ⟨0, 0, 0⟩) (pixelDirInWorldOf idCamera ⟨0, 0, 0⟩)
        wCubeB).tNear <
      (cubeSlab (pixelInWorldOf idCamera ⟨0, 0, 0⟩)
        (pixelDirInWorldOf idCamera ⟨0, 0, 0⟩) wCubeB).tFar ∧
    ComputeFragment ⟨0, 0, 0⟩ [wCubeA, wCubeB] idCamera = 0xFF0000FF := by
  refine ⟨?_, ?_, ?_⟩
  · norm_num [cubeSlab, slabTest, slabLoop, axisStep, slabInit, ieeeDiv, Min, Max,
      Vec3f.idx, Inverse, TransformPoint, Rotate, InverseRotate, Conjugate, Cross,
      pixelInWorldOf, pixelDirInWorldOf, wCubeA, wCubeB, idCamera]
  · norm_num [cubeSlab, slabTest, slabLoop, axisStep, slabInit, ieeeDiv, Min, Max,
      Vec3f.idx, Inverse, TransformPoint, Rotate, InverseRotate, Conjugate, Cross,
      pixelInWorldOf, pixelDirInWorldOf, wCubeB, idCamera]
  · have h := computeFragment_first_hit_in_order ⟨0, 0, 0⟩ idCamera [] [wCubeB] wCubeA
      (by simp)
      (by norm_num [cubeSlab, slabTest, slabLoop, axisStep, slabInit, ieeeDiv, Min, Max,
        Vec3f.idx, Inverse, TransformPoint, Rotate, InverseRotate, Conjugate, Cross,
        pixelInWorldOf, pixelDirInWorldOf, wCubeA, idCamera])
    rw [show ([] ++ wCubeA :: [wCubeB]) = [wCubeA, wCubeB] from rfl] at h
    rw [h]
    norm_num [cubeSlab, slabTest, slabLoop, axisStep, slabInit, ieeeDiv, Min, Max,
      Vec3f.idx, Inverse, TransformPoint, Rotate, InverseRotate, Conjugate, Cross,
      pixelInWorldOf, pixelDirInWorldOf, wCubeA, idCamera, kFaceColors]

/-- Claim C2: the per-cube slab test starts from `tNear = 0`, `tFar = 4096`,
`hitFace = 0` (`slabInit`), per axis takes the min/max of the two slab-boundary
distances, tightens `tNear` (recording `hitFace = axis*2 + (dir < 0)`) and `tFar`, and
exits the axis loop as soon as `tNear > tFar` (all of which is the definition of
`slabTest`); the early exit never changes the reported outcome: the final `tNear <
tFar` verdict, and on a hit the whole state, agree with the straight three-axis
tightening pass `slabTestNoBreak`. -/
theorem slabTest_spec (p d : Vec3f ℚ) (hs : ℚ) :
    ((slabTest p d hs).tNear < (slabTest p d hs).tFar ↔
      (slabTestNoBreak p d hs).tNear < (slabTestNoBreak p d hs).tFar) ∧
    ((slabTest p d hs).tNear < (slabTest p d hs).tFar →
      slabTest p d hs = slabTestNoBreak p d hs) :=
  slabLoop_agree p d hs [0, 1, 2] slabInit

/-- Witness for claim C2 at a concrete hitting ray. -/
theorem slabTest_spec_witness :
    (slabTest ⟨0, 0, -10⟩ ⟨0, 0, 1⟩ (1 / 2)).tNear <
      (slabTest ⟨0, 0, -10⟩ ⟨0, 0, 1⟩ (1 / 2)).tFar ∧
    slabTest ⟨0, 0, -10⟩ ⟨0, 0, 1⟩ (1 / 2) =
      slabTestNoBreak ⟨0, 0, -10⟩ ⟨0, 0, 1⟩ (1 / 2) := by
  have h : (slabTest ⟨0, 0, -10⟩ ⟨0, 0, 1⟩ (1 / 2)).tNear <
      (slabTest ⟨0, 0, -10⟩ ⟨0, 0, 1⟩ (1 / 2)).tFar := by
    norm_num [slabTest, slabLoop, axisStep, slabInit, ieeeDiv, Min, Max, Vec3f.idx]
  exact ⟨h, (slabTest_spec ⟨0, 0, -10⟩ ⟨0, 0, 1⟩ (1 / 2)).2 h⟩

/-- Claim C3 counterexample: the ray from `(0,0,-10)` along `+z` against the
identity-posed unit cube at the origin does register a hit, but the kernel reports
`hitFace = 4` — the `axis*2 + (dir < 0)` convention labels this entering `-z`-side hit
as the `Z+` face — not face id 5 as the claim states. -/
theorem c3_face_counterexample :
    (cubeSlab ⟨0, 0, -10⟩ ⟨0, 0, 1⟩ c3Cube).tNear <
      (cubeSlab ⟨0, 0, -10⟩ ⟨0, 0, 1⟩ c3Cube).tFar ∧
    ¬ (cubeSlab ⟨0, 0, -10⟩ ⟨0, 0, 1⟩ c3Cube).hitFace = 5 := by
  norm_num [cubeSlab, slabTest, slabLoop, axisStep, slabInit, ieeeDiv, Min, Max,
    Vec3f.idx, Inverse, TransformPoint, Rotate, InverseRotate, Conjugate, Cross, c3Cube]

/-- Claim C3 (amended): the ray from `(0,0,-10)` along `+z` against the unit cube at
the origin registers a hit with `tNear = 19/2` (the parametric distance of the plane
`z = -1/2`), but the reported face id is `4` (the code's `axis*2 + (dir < 0)` labelling
calls this hit `Z+`), so the rendered color is `kFaceColors[4] = 0xFF0000FF`. -/
theorem c3_center_ray_hit_amended :
    (cubeSlab ⟨0, 0, -10⟩ ⟨0, 0, 1⟩ c3Cube).tNear <
      (cubeSlab ⟨0, 0, -10⟩ ⟨0, 0, 1⟩ c3Cube).tFar ∧
    (cubeSlab ⟨0, 0, -10⟩ ⟨0, 0, 1⟩ c3Cube).hitFace = 4 ∧
    (cubeSlab ⟨0, 0, -10⟩ ⟨0, 0, 1⟩ c3Cube).tNear = toQInf (19 / 2) ∧
    ComputeFragment ⟨0, 0, 0⟩ [c3Cube] c3Camera = 0xFF0000FF := by
  norm_num [cubeSlab, slabTest, slabLoop, axisStep, slabInit, ieeeDiv, Min, Max,
    Vec3f.idx, Inverse, TransformPoint, Rotate, InverseRotate, Conjugate, Cross, c3Cube,
    c3Camera, ComputeFragment, fragLoop, pixelInWorldOf, pixelDirInWorldOf, kFaceColors]

/-- Characterization of one axis iteration as a record of three plain conditionals,
convenient for reasoning about the loop state. -/
theorem axisStep_eq (p d : Vec3f ℚ) (hs : ℚ) (i : ℕ) (s : Slab) :
    axisStep p d hs i s =
      { tNear :=
          if Min (ieeeDiv (-hs - p.idx i) (d.idx i)) (ieeeDiv (hs - p.idx i) (d.idx i)) >
              s.tNear then
            Min (ieeeDiv (-hs - p.idx i) (d.idx i)) (ieeeDiv (hs - p.idx i) (d.idx i))
          else s.tNear
        tFar :=
          if Max (ieeeDiv (-hs - p.idx i) (d.idx i)) (ieeeDiv (hs - p.idx i) (d.idx i)) <
              s.tFar then
            Max (ieeeDiv (-hs - p.idx i) (d.idx i)) (ieeeDiv (hs - p.idx i) (d.idx i))
          else s.tFar
        hitFace :=
          if Min (ieeeDiv (-hs - p.idx i) (d.idx i)) (ieeeDiv (hs - p.idx i) (d.idx i)) >
              s.tNear then
            i * 2 + (if d.idx i < 0 then 1 else 0)
          else s.hitFace } := by
  simp only [axisStep]
  split_ifs <;> rfl

/-- Key step for claim C10: when the ray origin lies strictly inside the slab of axis
`i` and the direction component is nonzero, the axis iteration leaves a zero `tNear`
and the face id untouched and keeps `tFar` positive. -/
theorem axisStep_inside (p d : Vec3f ℚ) (hs : ℚ) (i : ℕ) (hd : d.idx i ≠ 0)
    (h1 : -hs < p.idx i) (h2 : p.idx i < hs) (s : Slab) (hn : s.tNear = toQInf 0)
    (hf : toQInf 0 < s.tFar) :
    (axisStep p d hs i s).tNear = toQInf 0 ∧
    (axisStep p d hs i s).hitFace = s.hitFace ∧
    toQInf 0 < (axisStep p d hs i s).tFar := by
  have hnum1 : -hs - p.idx i < 0 := by linarith
  have hnum2 : 0 < hs - p.idx i := by linarith
  have hmin : Min (ieeeDiv (-hs - p.idx i) (d.idx i)) (ieeeDiv (hs - p.idx i) (d.idx i)) <
      toQInf 0 := by
    rw [ieeeDiv_of_ne_zero hd, ieeeDiv_of_ne_zero hd, Min_eq_min]
    rcases lt_or_gt_of_ne hd with hneg | hpos
    · exact min_lt_iff.mpr (Or.inr (toQInf_lt_toQInf.mpr (div_neg_of_pos_of_neg hnum2 hneg)))
    · exact min_lt_iff.mpr (Or.inl (toQInf_lt_toQInf.mpr (div_neg_of_neg_of_pos hnum1 hpos)))
  have hmax : toQInf 0 <
      Max (ieeeDiv (-hs - p.idx i) (d.idx i)) (ieeeDiv (hs - p.idx i) (d.idx i)) := by
    rw [ieeeDiv_of_ne_zero hd, ieeeDiv_of_ne_zero hd, Max_eq_max]
    rcases lt_or_gt_of_ne hd with hneg | hpos
    · exact lt_max_iff.mpr (Or.inl (toQInf_lt_toQInf.mpr (div_pos_of_neg_of_neg hnum1 hneg)))
    · exact lt_max_iff.mpr (Or.inr (toQInf_lt_toQInf.mpr (div_pos hnum2 hpos)))
  have hcond : ¬ Min (ieeeDiv (-hs - p.idx i) (d.idx i)) (ieeeDiv (hs - p.idx i) (d.idx i)) >
      s.tNear := by
    rw [hn]
    exact fun hcon => absurd hmin (lt_asymm hcon)
  rw [axisStep_eq, if_neg hcond, if_neg hcond]
  refine ⟨hn, rfl, ?_⟩
  dsimp only
  split_ifs with hfar
  · exact hmax
  · exact hf

/-- Claim C10: when every direction component is nonzero and the local-frame ray origin
lies strictly inside the box (so each axis has its smaller slab distance at or below
zero), the kernel leaves `tNear` at 0 and `hitFace` at its initial value 0, reports a
hit, and therefore colors the pixel as the `+X` face `kFaceColors[0] = 0xFFFF0000` —
regardless of which face the ray actually exits. -/
theorem slabTest_origin_inside (p d : Vec3f ℚ) (hs : ℚ) (hdx : d.x ≠ 0) (hdy : d.y ≠ 0)
    (hdz : d.z ≠ 0) (hx1 : -hs < p.x) (hx2 : p.x < hs) (hy1 : -hs < p.y)
    (hy2 : p.y < hs) (hz1 : -hs < p.z) (hz2 : p.z < hs) :
    (slabTest p d hs).tNear = toQInf 0 ∧ (slabTest p d hs).hitFace = 0 ∧
    (slabTest p d hs).tNear < (slabTest p d hs).tFar ∧
    kFaceColors.getD (slabTest p d hs).hitFace 0 = 0xFFFF0000 := by
  have h0 : (slabInit).tNear = toQInf 0 := rfl
  have h0f : toQInf 0 < (slabInit).tFar := by
    simp [slabInit]
  obtain ⟨e1, f1, g1⟩ := axisStep_inside p d hs 0 hdx hx1 hx2 slabInit h0 h0f
  obtain ⟨e2, f2, g2⟩ :=
    axisStep_inside p d hs 1 hdy hy1 hy2 (axisStep p d hs 0 slabInit) e1 g1
  obtain ⟨e3, f3, g3⟩ :=
    axisStep_inside p d hs 2 hdz hz1 hz2
      (axisStep p d hs 1 (axisStep p d hs 0 slabInit)) e2 g2
  have hb1 : ¬ (axisStep p d hs 0 slabInit).tNear > (axisStep p d hs 0 slabInit).tFar := by
    rw [e1]
    exact fun hcon => absurd g1 (lt_asymm hcon)
  have hb2 : ¬ (axisStep p d hs 1 (axisStep p d hs 0 slabInit)).tNear >
      (axisStep p d hs 1 (axisStep p d hs 0 slabInit)).tFar := by
    rw [e2]
    exact fun hcon => absurd g2 (lt_asymm hcon)
  have hb3 : ¬ (axisStep p d hs 2 (axisStep p d hs 1 (axisStep p d hs 0 slabInit))).tNear >
      (axisStep p d hs 2 (axisStep p d hs 1 (axisStep p d hs 0 slabInit))).tFar := by
    rw [e3]
    exact fun hcon => absurd g3 (lt_asymm hcon)
  have hrun : slabTest p d hs =
      axisStep p d hs 2 (axisStep p d hs 1 (axisStep p d hs 0 slabInit)) := by
    simp only [slabTest, slabLoop]
    rw [if_neg hb1, if_neg hb2, if_neg hb3]
  rw [hrun, e3, f3, f2, f1]
  refine ⟨rfl, rfl, g3, rfl⟩

/-- Witness for claim C10: origin at the cube center, direction `(1,1,1)`. -/
theorem slabTest_origin_inside_witness :
    (slabTest ⟨0, 0, 0⟩ ⟨1, 1, 1⟩ (1 / 2)).tNear = toQInf 0 ∧
    (slabTest ⟨0, 0, 0⟩ ⟨1, 1, 1⟩ (1 / 2)).hitFace = 0 ∧
    (slabTest ⟨0, 0, 0⟩ ⟨1, 1, 1⟩ (1 / 2)).tNear <
      (slabTest ⟨0, 0, 0⟩ ⟨1, 1, 1⟩ (1 / 2)).tFar ∧
    kFaceColors.getD (slabTest ⟨0, 0, 0⟩ ⟨1, 1, 1⟩ (1 / 2)).hitFace 0 = 0xFFFF0000 :=
  slabTest_origin_inside ⟨0, 0, 0⟩ ⟨1, 1, 1⟩ (1 / 2) (by norm_num) (by norm_num)
    (by norm_num) (by norm_num) (by norm_num) (by norm_num) (by norm_num) (by norm_num)
    (by norm_num)

/-- Claim C4 counterexample: at pixel `(0,0)` with the identity camera pose, the
world-space ray origin used by the kernel is `Transform(cameraToWorld, (camX, camY, 0))`
— the camera-plane point — and differs from the camera pose position. -/
theorem c4_ray_origin_counterexample :
    pixelInWorldOf idCamera (WindowToCamera 0 0) ≠ idCamera.pos := by
  intro h
  have hx := congrArg Vec3f.x h
  norm_num [pixelInWorldOf, TransformPoint, Rotate, Cross, WindowToCamera, idCamera,
    kAspect, kTanHalfFov, kFovY, Tan, Sin, Cos, castToI32, kWindowWidth, kWindowHeight,
    kPi, kTau, kHalfPi, kInvTau] at hx

/-- Claim C4 (amended): for every pixel and camera pose, the world ray tested by the
kernel has direction `Rotate(orientation, (camX, camY, 1))` with `camX, camY` obtained
from NDC by the `aspect * tan(fovY/2)` and `tan(fovY/2)` scalings — as claimed — but
its origin is `camera position + Rotate(orientation, (camX, camY, 0))`, the transformed
camera-plane point, not the camera position itself. -/
theorem camera_ray_formulas (cam : Pose ℚ) (x y : ℕ) :
    pixelDirInWorldOf cam (WindowToCamera x y) =
      Rotate cam.ori
        ⟨(2 * ((x : ℚ) + 1 / 2) / (kWindowWidth : ℚ) - 1) * kAspect * kTanHalfFov,
          (1 - 2 * ((y : ℚ) + 1 / 2) / (kWindowHeight : ℚ)) * kTanHalfFov, 1⟩ ∧
    pixelInWorldOf cam (WindowToCamera x y) =
      cam.pos + Rotate cam.ori
        ⟨(2 * ((x : ℚ) + 1 / 2) / (kWindowWidth : ℚ) - 1) * kAspect * kTanHalfFov,
          (1 - 2 * ((y : ℚ) + 1 / 2) / (kWindowHeight : ℚ)) * kTanHalfFov, 0⟩ :=
  ⟨rfl, rfl⟩

/-- Unit-rotor pose (rotation about `z` by the 3-4-5 angle, position `(0,1,0)`) on
which `Transform(p, Inverse(p))` fails to return to the identity (claim C5). -/
def c5Pose : Pose ℚ := ⟨⟨0, 1, 0⟩, ⟨3 / 5, 0, 0, 4 / 5⟩⟩

/-- Claim C5 fails on the code: for the unit-rotor pose `c5Pose`, the composed pose
`Transform(p, Inverse(p))` has the identity orientation but a position far from zero
(it evaluates to `(48/25, 64/25, 0)`), because `InverseRotate` (src/common.hpp line
231) computes `v + 2*(w*uv - Cross(u, uv))` where the inverse rotation is
`v + 2*(Cross(u, uv) - w*uv)`: both signs inside the parenthesis are flipped relative
to the source's own derivation comment, so `Inverse` does not invert the rotation of
the position. -/
theorem transform_inverse_not_identity :
    QuatDot c5Pose.ori c5Pose.ori = 1 ∧
    (Transform c5Pose (Inverse c5Pose)).ori = (⟨1, 0, 0, 0⟩ : Quatf ℚ) ∧
    (Transform c5Pose (Inverse c5Pose)).pos = (⟨48 / 25, 64 / 25, 0⟩ : Vec3f ℚ) ∧
    (Transform c5Pose (Inverse c5Pose)).pos ≠ (⟨0, 0, 0⟩ : Vec3f ℚ) := by
  refine ⟨by norm_num [QuatDot, c5Pose], ?_, ?_, ?_⟩
  · apply Quatf.ext4 <;>
      norm_num [Transform, Inverse, InverseRotate, Rotate, Conjugate, Cross, c5Pose]
  · apply Vec3f.ext3 <;>
      norm_num [Transform, Inverse, InverseRotate, Rotate, Conjugate, Cross, c5Pose]
  · intro h
    have hx := congrArg Vec3f.x h
    norm_num [Transform, Inverse, InverseRotate, Rotate, Conjugate, Cross, c5Pose] at hx

/-- Scene state already holding `kMaxCubes` cubes, used for claim C9. -/
def fullState : State := ⟨kMaxCubes, fun _ => c3Cube⟩

/-- Claim C9 fails on the code: the insertion code path (`iCube = m_numCubes++` followed
by unconditional array writes, src/main.cpp lines 310-324) performs no capacity
comparison and signals nothing.  Inserting into a scene already holding `kMaxCubes`
cubes writes the cube at index `kMaxCubes` — outside the `kMaxCubes`-sized arrays —
and bumps the count to `kMaxCubes + 1`. -/
theorem addCube_no_capacity_signal :
    addCubeWriteIndex fullState = kMaxCubes ∧
    ¬ addCubeWriteIndex fullState < kMaxCubes ∧
    (AddCube fullState c3Cube).numCubes = kMaxCubes + 1 ∧
    (AddCube fullState c3Cube).cubes kMaxCubes = c3Cube := by
  refine ⟨rfl, ?_, rfl, ?_⟩
  · simp [addCubeWriteIndex, fullState]
  · simp [AddCube, fullState]

variable {α : Type} [CommRing α]

/-- Rotation by a rotor is additive in the vector argument. -/
theorem rotate_add (q : Quatf α) (u v : Vec3f α) :
    Rotate q (u + v) = Rotate q u + Rotate q v := by
  refine Vec3f.ext3 ?_ ?_ ?_ <;> simp [Rotate] <;> ring

/-- Composition law for the source's `Rotate` under unit rotors: rotating by a Hamilton
product equals rotating twice.  The `linear_combination` certificates come from the
decomposition `Rotate(q) = Sandwich(q) + (1 - |q|^2) Id` together with the exact
multiplicativity of the quaternion sandwich. -/
theorem rotate_comp (a b : Quatf α) (v : Vec3f α) (ha : QuatDot a a = 1)
    (hb : QuatDot b b = 1) : Rotate (a * b) v = Rotate a (Rotate b v) := by
  refine Vec3f.ext3 ?_ ?_ ?_ <;> simp [Rotate, QuatDot] at ha hb ⊢
  · linear_combination
      (((b.w ^ 2 - (b.e23 ^ 2 + b.e13 ^ 2 + b.e12 ^ 2)) * v.x +
          2 * (b.e23 * v.x + b.e13 * v.y + b.e12 * v.z) * b.e23 +
          2 * b.w * (b.e13 * v.z - b.e12 * v.y)) - v.x -
        2 * ((b.w * b.w + b.e23 * b.e23 + b.e13 * b.e13 + b.e12 * b.e12) - 1) * v.x) * ha +
      (((a.w ^ 2 - (a.e23 ^ 2 + a.e13 ^ 2 + a.e12 ^ 2)) * v.x +
          2 * (a.e23 * v.x + a.e13 * v.y + a.e12 * v.z) * a.e23 +
          2 * a.w * (a.e13 * v.z - a.e12 * v.y)) - v.x) * hb
  · linear_combination
      (((b.w ^ 2 - (b.e23 ^ 2 + b.e13 ^ 2 + b.e12 ^ 2)) * v.y +
          2 * (b.e23 * v.x + b.e13 * v.y + b.e12 * v.z) * b.e13 +
          2 * b.w * (b.e12 * v.x - b.e23 * v.z)) - v.y -
        2 * ((b.w * b.w + b.e23 * b.e23 + b.e13 * b.e13 + b.e12 * b.e12) - 1) * v.y) * ha +
      (((a.w ^ 2 - (a.e23 ^ 2 + a.e13 ^ 2 + a.e12 ^ 2)) * v.y +
          2 * (a.e23 * v.x + a.e13 * v.y + a.e12 * v.z) * a.e13 +
          2 * a.w * (a.e12 * v.x - a.e23 * v.z)) - v.y) * hb
  · linear_combination
      (((b.w ^ 2 - (b.e23 ^ 2 + b.e13 ^ 2 + b.e12 ^ 2)) * v.z +
          2 * (b.e23 * v.x + b.e13 * v.y + b.e12 * v.z) * b.e12 +
          2 * b.w * (b.e23 * v.y - b.e13 * v.x)) - v.z -
        2 * ((b.w * b.w + b.e23 * b.e23 + b.e13 * b.e13 + b.e12 * b.e12) - 1) * v.z) * ha +
      (((a.w ^ 2 - (a.e23 ^ 2 + a.e13 ^ 2 + a.e12 ^ 2)) * v.z +
          2 * (a.e23 * v.x + a.e13 * v.y + a.e12 * v.z) * a.e12 +
          2 * a.w * (a.e23 * v.y - a.e13 * v.x)) - v.z) * hb

/-- Claim C6: for poses `a`, `b` (with unit orientation rotors, the data model's
invariant for every pose the program builds) and every point `p`, transforming `p` by
the composed pose equals transforming by `b` and then by `a`. -/
theorem transformPoint_compose (a b : Pose α) (p : Vec3f α)
    (ha : QuatDot a.ori a.ori = 1) (hb : QuatDot b.ori b.ori = 1) :
    TransformPoint (Transform a b) p = TransformPoint a (TransformPoint b p) := by
  show (a.pos + Rotate a.ori b.pos) + Rotate (a.ori * b.ori) p =
    a.pos + Rotate a.ori (b.pos + Rotate b.ori p)
  rw [rotate_comp a.ori b.ori p ha hb, rotate_add]
  refine Vec3f.ext3 ?_ ?_ ?_ <;> simp <;> ring

/-- First pose of the claim C6 witness: unit rotor about `x`, position `(1,2,3)`. -/
def wPoseA : Pose ℚ := ⟨⟨1, 2, 3⟩, ⟨3 / 5, 4 / 5, 0, 0⟩⟩

/-- Second pose of the claim C6 witness: unit rotor about `z`, position `(-1,0,2)`. -/
def wPoseB : Pose ℚ := ⟨⟨-1, 0, 2⟩, ⟨3 / 5, 0, 0, 4 / 5⟩⟩

/-- Witness for claim C6 at concrete unit-rotor poses and a concrete point. -/
theorem transformPoint_compose_witness :
    QuatDot wPoseA.ori wPoseA.ori = 1 ∧ QuatDot wPoseB.ori wPoseB.ori = 1 ∧
    TransformPoint (Transform wPoseA wPoseB) ⟨1, 1, 1⟩ =
      TransformPoint wPoseA (TransformPoint wPoseB ⟨1, 1, 1⟩) :=
  ⟨by norm_num [QuatDot, wPoseA], by norm_num [QuatDot, wPoseB],
    transformPoint_compose wPoseA wPoseB ⟨1, 1, 1⟩ (by norm_num [QuatDot, wPoseA])
      (by norm_num [QuatDot, wPoseB])⟩

/-- Claim C7: for every unit rotor `q` and vector `v`, rotating by `q` and then by
`Conjugate(q)` returns `v` exactly (in the exact-arithmetic model the float-tolerance
round trip is an identity). -/
theorem rotate_conjugate_roundtrip (q : Quatf α) (v : Vec3f α) (h : QuatDot q q = 1) :
    Rotate (Conjugate q) (Rotate q v) = v := by
  refine Vec3f.ext3 ?_ ?_ ?_ <;> simp [Rotate, QuatDot] at h ⊢
  · linear_combination
      (4 * (q.e23 ^ 2 + q.e13 ^ 2 + q.e12 ^ 2) * v.x -
        4 * (q.e23 * v.x + q.e13 * v.y + q.e12 * v.z) * q.e23) * h
  · linear_combination
      (4 * (q.e23 ^ 2 + q.e13 ^ 2 + q.e12 ^ 2) * v.y -
        4 * (q.e23 * v.x + q.e13 * v.y + q.e12 * v.z) * q.e13) * h
  · linear_combination
      (4 * (q.e23 ^ 2 + q.e13 ^ 2 + q.e12 ^ 2) * v.z -
        4 * (q.e23 * v.x + q.e13 * v.y + q.e12 * v.z) * q.e12) * h

/-- Witness for claim C7 at a concrete unit rotor and vector. -/
theorem rotate_conjugate_roundtrip_witness :
    QuatDot (⟨3 / 5, 4 / 5, 0, 0⟩ : Quatf ℚ) ⟨3 / 5, 4 / 5, 0, 0⟩ = 1 ∧
    Rotate (Conjugate (⟨3 / 5, 4 / 5, 0, 0⟩ : Quatf ℚ))
      (Rotate ⟨3 / 5, 4 / 5, 0, 0⟩ ⟨1, 2, 3⟩) = ⟨1, 2, 3⟩ :=
  ⟨by norm_num [QuatDot],
    rotate_conjugate_roundtrip ⟨3 / 5, 4 / 5, 0, 0⟩ ⟨1, 2, 3⟩ (by norm_num [QuatDot])⟩

/-- Multiplicativity of the squared rotor magnitude under the Hamilton product
(the Euler four-square identity). -/
theorem quatDot_mul (a b : Quatf α) :
    QuatDot (a * b) (a * b) = QuatDot a a * QuatDot b b := by
  simp only [QuatDot, Quatf.mul_w, Quatf.mul_e23, Quatf.mul_e13, Quatf.mul_e12]
  ring

/-- The rotor built by `FromAngleAxis` about the axis `(0,1,0)` always has positive
squared magnitude: it is `cos^2 + (1 - cos^2) = 1` while `cos^2 ≤ 1`, and `cos^2`
otherwise (the square root of a negative argument being 0 under `Real.sqrt`). -/
theorem fromAngleAxis_up_normSq_pos (θ : ℝ) :
    0 < QuatDot (FromAngleAxis Real.sqrt θ ⟨0, 1, 0⟩)
      (FromAngleAxis Real.sqrt θ ⟨0, 1, 0⟩) := by
  have hax : Vec3f.Normalize Real.sqrt (⟨0, 1, 0⟩ : Vec3f ℝ) = ⟨0, 1, 0⟩ := by
    norm_num [Vec3f.Normalize, Dot, Real.sqrt_one]
  simp only [FromAngleAxis, hax, Vec3f.smul_x, Vec3f.smul_y, Vec3f.smul_z, QuatDot]
  rcases le_or_lt 0 (1 - Cos (θ * ((1 : ℝ) / 2)) * Cos (θ * ((1 : ℝ) / 2))) with hpos | hneg
  · have hs := Real.sq_sqrt hpos
    split_ifs <;> nlinarith [hs]
  · have hs : Real.sqrt (1 - Cos (θ * ((1 : ℝ) / 2)) * Cos (θ * ((1 : ℝ) / 2))) = 0 :=
      Real.sqrt_eq_zero'.mpr hneg.le
    split_ifs <;> nlinarith [hs]

/-- Renormalizing a rotor of positive squared magnitude yields squared magnitude
exactly 1. -/
theorem normalize_normSq (p : Quatf ℝ) (hp : 0 < QuatDot p p) :
    QuatDot (Quatf.Normalize Real.sqrt p) (Quatf.Normalize Real.sqrt p) = 1 := by
  simp only [Quatf.Normalize]
  set s := Real.sqrt (QuatDot p p) with hsdef
  have hs : s ^ 2 = QuatDot p p := by
    rw [hsdef]
    exact Real.sq_sqrt hp.le
  have hsne : s ≠ 0 := by
    rw [hsdef]
    exact Real.sqrt_ne_zero'.mpr hp
  simp only [QuatDot] at hs ⊢
  field_simp
  linarith [hs]

/-- Claim C8: whenever the accumulated horizontal mouse delta `d` is nonzero, the yaw
update replaces the camera orientation by the renormalization of the old orientation
right-multiplied by `FromAngleAxis(0.002 * d, (0,1,0))` (the axis the source uses for
"up"; the source's world convention comment calls `+Z` up, making `(0,1,0)` the
camera-local down axis), and the squared magnitude of the result is exactly 1 in exact
arithmetic; when `d = 0` the orientation is unchanged. -/
theorem handleInputYaw_spec (q : Quatf ℝ) (d : ℤ) (hq : QuatDot q q = 1)
    (hd : d ≠ 0) :
    HandleInputYaw Real.sqrt d q =
      Quatf.Normalize Real.sqrt
        (q * FromAngleAxis Real.sqrt (((0.002 : ℚ) : ℝ) * (d : ℝ)) ⟨0, 1, 0⟩) ∧
    QuatDot (HandleInputYaw Real.sqrt d q) (HandleInputYaw Real.sqrt d q) = 1 ∧
    HandleInputYaw Real.sqrt 0 q = q := by
  have hup := fromAngleAxis_up_normSq_pos (((0.002 : ℚ) : ℝ) * (d : ℝ))
  have hprod : 0 < QuatDot
      (q * FromAngleAxis Real.sqrt (((0.002 : ℚ) : ℝ) * (d : ℝ)) ⟨0, 1, 0⟩)
      (q * FromAngleAxis Real.sqrt (((0.002 : ℚ) : ℝ) * (d : ℝ)) ⟨0, 1, 0⟩) := by
    rw [quatDot_mul, hq, one_mul]
    exact hup
  refine ⟨by simp [HandleInputYaw, hd], ?_, by simp [HandleInputYaw]⟩
  simp only [HandleInputYaw, if_neg hd]
  exact normalize_normSq _ hprod

/-- Witness for claim C8 at the identity rotor and mouse delta 1. -/
theorem handleInputYaw_spec_witness :
    QuatDot (⟨1, 0, 0, 0⟩ : Quatf ℝ) ⟨1, 0, 0, 0⟩ = 1 ∧ (1 : ℤ) ≠ 0 ∧
    QuatDot (HandleInputYaw Real.sqrt 1 ⟨1, 0, 0, 0⟩)
      (HandleInputYaw Real.sqrt 1 ⟨1, 0, 0, 0⟩) = 1 ∧
    HandleInputYaw Real.sqrt 0 (⟨1, 0, 0, 0⟩ : Quatf ℝ) = ⟨1, 0, 0, 0⟩ :=
  ⟨by norm_num [QuatDot], by norm_num,
    (handleInputYaw_spec ⟨1, 0, 0, 0⟩ 1 (by norm_num [QuatDot]) (by norm_num)).2.1,
    (handleInputYaw_spec ⟨1, 0, 0, 0⟩ 1 (by norm_num [QuatDot]) (by norm_num)).2.2⟩

end Engine
